import Mathlib

/-!
Verification of the url-query binding layer (package `query`): a shallow
embedding of `decode.go`, `encode.go` and the tag helpers, together with
theorems settling the specification's claims about them.

Embedding conventions:
* `url.Values` (a Go map from string keys to `[]string`) is modelled as an
  association list `QVals`; map lookup of a missing key yields `[]`, exactly
  as a Go map lookup of a missing key yields a nil slice.  Statements about
  whole maps are made extensionally through `qget`, because Go map iteration
  order is unobservable.
* Go `error` is modelled as `Option String` (`none` = nil error); the message
  text is immaterial to every claim, only nil-ness and identity matter.
* Machine integers are carried as `Int`/`Nat`; the bit-width range checks of
  `strconv.ParseInt`/`ParseUint` are modelled explicitly with `2 ^ w` bounds.
* IEEE-754 float parsing and shortest-round-trip formatting
  (`strconv.ParseFloat` / `strconv.FormatFloat(_, 'f', -1, w)`) are external
  standard-library behaviour, not code of this repository; they are kept
  abstract as a `FloatModel` parameter over an opaque representation type,
  and every theorem is proved for an arbitrary such model.
* A struct type that implements the custom `Decoder`/`Encoder` interfaces is
  modelled by an abstract state (`GoValue.vState`) together with the
  user-supplied method as a function in the field descriptor.
-/

namespace UrlQuery

/-! ## url.Values -/

/-- Model of Go `url.Values = map[string][]string` as an association list. -/
abbrev QVals := List (String × List String)

/-- Go map indexing `q[k]`: the values stored under `k`, nil (= `[]`) when
the key is absent. -/
def qget : QVals → String → List String
  | [], _ => []
  | (k0, vs) :: rest, k => if k0 = k then vs else qget rest k

/-- The Go statement `q[k] = append(q[k], vs...)`: extends the entry for `k`
(creating it, possibly empty, when absent).  `url.Values.Add` is the
one-element case. -/
def qappend : QVals → String → List String → QVals
  | [], k, vs => [(k, vs)]
  | (k0, vs0) :: rest, k, vs =>
    if k0 = k then (k0, vs0 ++ vs) :: rest else (k0, vs0) :: qappend rest k vs

/-- Model of `url.Values.Add k v`, used by `encodeField`. -/
def qadd (q : QVals) (k : String) (v : String) : QVals := qappend q k [v]

/-- The merge loop of `encodeCustom`:
`for k, values := range sub { v[k] = append(v[k], values...) }`.
Go iterates the map `sub` in unspecified order; the model fixes the list
order, and all claims about the merged map are stated through `qget`,
which is order-insensitive across distinct keys. -/
def qmerge (dst sub : QVals) : QVals :=
  sub.foldl (fun d e => qappend d e.1 e.2) dst

/-! ## strconv (integer and bool coercions, modelled from the standard
library behaviour invoked by `parseField`/`parseSlice`) -/

/-- Numeric value of a digit string (base 10). -/
def digitsVal (cs : List Char) : Nat :=
  cs.foldl (fun acc c => acc * 10 + (c.toNat - 48)) 0

/-- Nonempty and all base-10 digits: the syntax `strconv` accepts after the
optional sign for base-10 integer parsing. -/
def isDigits (cs : List Char) : Bool :=
  !cs.isEmpty && cs.all (fun c => c.isDigit)

/-- Model of `strconv.ParseUint(s, 10, bits)`: no sign permitted, digits only,
value at most `2^bits - 1`; `none` models a non-nil error (syntax or
range). -/
def goParseUint (s : String) (bits : Nat) : Option Nat :=
  if isDigits s.data then
    let n := digitsVal s.data
    if n ≤ 2 ^ bits - 1 then some n else none
  else none

/-- Model of `strconv.ParseInt(s, 10, bits)` (also `strconv.Atoi` at `bits = 64`):
optional sign, digits, two's-complement range check. -/
def goParseInt (s : String) (bits : Nat) : Option Int :=
  match s.data with
  | [] => none
  | c :: rest =>
    let signed : Bool × List Char :=
      if c = '-' then (true, rest)
      else if c = '+' then (false, rest)
      else (false, c :: rest)
    if isDigits signed.2 then
      let n := digitsVal signed.2
      if signed.1 then
        if n ≤ 2 ^ (bits - 1) then some (-(n : Int)) else none
      else
        if n ≤ 2 ^ (bits - 1) - 1 then some (n : Int) else none
    else none

/-- Model of `strconv.ParseBool`: the exact set of accepted literals. -/
def goParseBool (s : String) : Option Bool :=
  if s = "1" ∨ s = "t" ∨ s = "T" ∨ s = "TRUE" ∨ s = "true" ∨ s = "True" then some true
  else if s = "0" ∨ s = "f" ∨ s = "F" ∨ s = "FALSE" ∨ s = "false" ∨ s = "False" then some false
  else none

/-- Model of `strconv.FormatBool`. -/
def goFormatBool (b : Bool) : String := if b then "true" else "false"

/-- Model of `strconv.FormatInt(n, 10)` (on `field.Int()`, any signed width). -/
def goFormatInt (n : Int) : String := toString n

/-- Model of `strconv.FormatUint(n, 10)`. -/
def goFormatUint (n : Nat) : String := toString n

/-! ## Floats -/

/-- Modelled from the spec: `strconv.ParseFloat` and
`strconv.FormatFloat(_, 'f', -1, 32/64)` ("locale-independent decimal parse
at the matching bit width; out-of-range or malformed errors", "shortest
round-trippable decimal") are standard-library IEEE-754 behaviour, not code
of this repository.  They are kept abstract: float values are carried as an
opaque `String` representation and every theorem holds for an arbitrary
`FloatModel`. -/
structure FloatModel where
  parse32 : String → Option String
  parse64 : String → Option String
  format32 : String → String
  format64 : String → String
  isZero32 : String → Bool
  isZero64 : String → Bool
  zero32 : String
  zero64 : String

/-- A concrete `FloatModel` instance used to evaluate witnesses and
counterexamples (none of which involve float fields). -/
def FM0 : FloatModel :=
  ⟨fun _ => none, fun _ => none, id, id,
   fun r => r = "0", fun r => r = "0", "0", "0"⟩

/-! ## Data model: field types, values, field descriptors -/

/-- Bit widths of the Go integer kinds; `int`/`uint` are 64-bit
(`parseField` parses them with bit size 64, `parseSlice` via
`strconv.Atoi`/`ParseUint(_, 10, 64)`). -/
inductive IntW
  | w8 | w16 | w32 | w64
  deriving DecidableEq, Repr

def IntW.bits : IntW → Nat
  | .w8 => 8
  | .w16 => 16
  | .w32 => 32
  | .w64 => 64

/-- The scalar kinds handled by `parseField`/`encodeField`. -/
inductive ScalarTy
  | str | bool | int (w : IntW) | uint (w : IntW) | f32 | f64
  deriving DecidableEq, Repr

/-- The reflect kinds the engines dispatch on.  `unsupported` covers every
kind both engines ignore (struct, map, chan, ...: the `default` branches of
`parseField` and `encodeField`); a slice with a non-scalar element type
behaves identically to `unsupported` in both engines and is folded into it. -/
inductive FieldTy
  | scalar (t : ScalarTy)
  | slice (t : ScalarTy)
  | ptr (t : FieldTy)
  | unsupported
  deriving DecidableEq, Repr

/-- Runtime field values.  `vState` is the abstract state of a value of a
struct (or other opaque) type, in particular one implementing the custom
`Decoder`/`Encoder` interfaces; `vF32`/`vF64` carry the abstract float
representation interpreted by a `FloatModel`. -/
inductive GoValue
  | vStr (s : String)
  | vBool (b : Bool)
  | vInt (n : Int)
  | vUint (n : Nat)
  | vF32 (r : String)
  | vF64 (r : String)
  | vSlice (xs : List GoValue)
  | vPtr (p : Option GoValue)
  | vState (st : Nat)

/-- A struct field descriptor: Go name, exportedness, the raw `query` and
`default` tags, the reflect kind, and — when the field's type (or its
pointer type) implements the custom interfaces — the user-supplied
`DecodeQuery` / `EncodeValues` methods acting on the abstract state. -/
structure GoField where
  goName : String
  exported : Bool
  tagQuery : Option String
  tagDefault : Option String
  ty : FieldTy
  dec : Option (QVals → Nat → Nat × Option String)
  enc : Option (Option Nat → QVals × Option String)

/-- A record: the fields of a struct in declaration order, paired with their
current values. -/
abbrev Record := List (GoField × GoValue)

/-! ## Tag helpers (`tags.go`) -/

/-- Character-level splitter behind `strings.Split(v, ",")`: splits on every
comma, keeping empty segments, and yields `[""]` for the empty string —
exactly Go's semantics for a one-character separator. -/
def splitCommaAux : List Char → List (List Char)
  | [] => [[]]
  | c :: rest =>
    match splitCommaAux rest with
    | [] => [[]]
    | h :: t => if c = ',' then [] :: h :: t else (c :: h) :: t

/-- Model of `strings.Split(s, ",")`. -/
def splitComma (s : String) : List String :=
  (splitCommaAux s.data).map String.mk

/-- The no-tag fallback of `getNameTags`: lower-case the first rune of the
field name (model restricted to ASCII names, `unicode.ToLower` agreeing with
`Char.toLower` there). -/
def lowerFirst (s : String) : String :=
  match s.data with
  | [] => ""
  | c :: rest => String.mk (Char.toLower c :: rest)

/-- Embedding of `getNameTags`: the comma-split `query` tag, or the lower-cased field
name when the tag is absent. -/
def getNameTags (f : GoField) : List String :=
  match f.tagQuery with
  | none => [lowerFirst f.goName]
  | some v => splitComma v

/-- Embedding of `getDefaultTags`: the comma-split `default` tag, or nil. -/
def getDefaultTags (f : GoField) : List String :=
  match f.tagDefault with
  | none => []
  | some v => splitComma v

/-- Embedding of `getName`: first name token (`getNameTags` never returns an empty list,
so the `headD` default is never used). -/
def getName (f : GoField) : String := (getNameTags f).headD ""

/-- Embedding of `getValues`: the map entry under the resolved name, falling back to the
declared defaults when the entry is missing or empty. -/
def getValues (q : QVals) (f : GoField) : List String :=
  let values := qget q (getName f)
  if values.isEmpty then getDefaultTags f else values

/-! ## Decode engine (`decode.go`) -/

/-- Model of `reflect.New(typ)` referents: the zero value of each field type. -/
def zeroValue (FM : FloatModel) : FieldTy → GoValue
  | .scalar .str => .vStr ""
  | .scalar .bool => .vBool false
  | .scalar (.int _) => .vInt 0
  | .scalar (.uint _) => .vUint 0
  | .scalar .f32 => .vF32 FM.zero32
  | .scalar .f64 => .vF64 FM.zero64
  | .slice _ => .vSlice []
  | .ptr _ => .vPtr none
  | .unsupported => .vState 0

/-- The scalar branches of `parseField` (and the per-element coercion of
`parseSlice`): the `strconv` parse for the given scalar kind, `none`
modelling a non-nil error.  Widths: `int`/`int64` parse at bit size 64,
`int32/16/8` at 32/16/8, and likewise for the unsigned kinds. -/
def scalarParse (FM : FloatModel) : ScalarTy → String → Option GoValue
  | .str, s => some (.vStr s)
  | .bool, s => (goParseBool s).map .vBool
  | .int w, s => (goParseInt s w.bits).map .vInt
  | .uint w, s => (goParseUint s w.bits).map .vUint
  | .f32, s => (FM.parse32 s).map .vF32
  | .f64, s => (FM.parse64 s).map .vF64

/-- Message of the `strconv` error returned for a failed scalar coercion. -/
def coerceMsg (s : String) : String := "cannot coerce value: " ++ s

/-- The element loop of `parseSlice`: coerce every string in input order,
stopping at (and returning) the first element error, building the parsed
list in order. -/
def parseElems (p : String → Option GoValue) : List String → Except String (List GoValue)
  | [] => .ok []
  | s :: rest =>
    match p s with
    | none => .error (coerceMsg s)
    | some w => (parseElems p rest).map (fun ws => w :: ws)

/-- Embedding of `parseField` (with `parseSlice` inlined for the slice case): dispatch on
the field's reflect kind.  Scalars coerce `values[0]` and overwrite the
field; slices coerce every value, setting the field only when all elements
succeed; pointers allocate a zero referent, parse into it and attach it only
on success; unsupported kinds are ignored (no error, no mutation).  The
result is the new field value, or the error (in which case the caller
leaves the field untouched). -/
def parseFieldV (FM : FloatModel) : FieldTy → GoValue → List String → Except String GoValue
  | .scalar t, _, values =>
    match scalarParse FM t (values.headD "") with
    | some w => .ok w
    | none => .error (coerceMsg (values.headD ""))
  | .slice t, _, values => (parseElems (scalarParse FM t) values).map .vSlice
  | .ptr t, _, values =>
    match parseFieldV FM t (zeroValue FM t) values with
    | .ok w => .ok (.vPtr (some w))
    | .error e => .error e
  | .unsupported, v, _ => .ok v

/-- Embedding of `decodeCustom` applied to a struct field: `none` when the field's type
does not implement `Decoder` (`f.dec = none`); otherwise run the
user-supplied `DecodeQuery` on the field's state.  For a nil pointer field
the source first allocates a fresh zero referent (`reflect.New`), attaches
it to the field, and runs the decoder on it — so the field ends up non-nil
even when the decoder fails or reads nothing. -/
def decodeCustomField (q : QVals) (f : GoField) (v : GoValue) :
    Option (GoValue × Option String) :=
  match f.dec with
  | none => none
  | some d =>
    match f.ty, v with
    | .ptr _, .vPtr none => some (.vPtr (some (.vState (d q 0).1)), (d q 0).2)
    | .ptr _, .vPtr (some (.vState st)) => some (.vPtr (some (.vState (d q st).1)), (d q st).2)
    | _, .vState st => some (.vState (d q st).1, (d q st).2)
    | _, _ => some (v, none)

/-- One iteration of the `parseStruct` loop for a single field: skip
unexported fields (the source's `CanAddr`/`CanSet` guard is always satisfied
by the exported fields of a pointed-to struct, so it adds nothing here), run
a custom decoder when the type implements `Decoder`, otherwise resolve the
values (map entry or defaults), skip when empty, and parse — on a parse
error the field keeps its prior value and the error is recorded. -/
def decodeFieldStep (FM : FloatModel) (q : QVals) (fv : GoField × GoValue) :
    (GoField × GoValue) × Option String :=
  if fv.1.exported then
    match decodeCustomField q fv.1 fv.2 with
    | some ve => ((fv.1, ve.1), ve.2)
    | none =>
      match getValues q fv.1 with
      | [] => (fv, none)
      | s :: rest =>
        match parseFieldV FM fv.1.ty fv.2 (s :: rest) with
        | .ok w => ((fv.1, w), none)
        | .error e => (fv, some e)
  else (fv, none)

/-- Model of `errors.Join` on the collected per-field errors: nil iff no error was
collected; Go joins the messages with a newline. -/
def joinErrors : List String → Option String
  | [] => none
  | e :: es => some (String.intercalate "\n" (e :: es))

/-- Embedding of `parseStruct`: each field is processed independently in declaration
order (the loop reads only `q` and the field's own slot and writes only that
slot, so it is exactly a map), and the collected errors are joined. -/
def parseStructGo (FM : FloatModel) (q : QVals) (r : Record) : Record × Option String :=
  let results := r.map (decodeFieldStep FM q)
  (results.map Prod.fst, joinErrors (results.filterMap Prod.snd))

/-- Embedding of `Decode` invoked on a pointer to a plain struct (one that does not
itself implement `Decoder`): a nil map short-circuits to a nil error before
anything is inspected; otherwise `parse` dereferences the pointer and walks
the struct. -/
def Decode (FM : FloatModel) (q : Option QVals) (r : Record) : Record × Option String :=
  match q with
  | none => (r, none)
  | some qv => parseStructGo FM qv r

/-! ## Encode engine (`encode.go`) -/

/-- The scalar formatting of `encodeField`/`encodeSlice`: the `strconv`
format for each scalar kind (the catch-all is unreachable on well-typed
records). -/
def scalarFormat (FM : FloatModel) : ScalarTy → GoValue → String
  | .str, .vStr s => s
  | .bool, .vBool b => goFormatBool b
  | .int _, .vInt n => goFormatInt n
  | .uint _, .vUint n => goFormatUint n
  | .f32, .vF32 r => FM.format32 r
  | .f64, .vF64 r => FM.format64 r
  | _, _ => ""

/-- Model of `reflect.Value.IsZero`, used by the `omitempty` directive.  The model
identifies nil and empty slices (no claim distinguishes them). -/
def isZeroV (FM : FloatModel) : FieldTy → GoValue → Bool
  | .scalar .str, .vStr s => s = ""
  | .scalar .bool, .vBool b => !b
  | .scalar (.int _), .vInt n => n = 0
  | .scalar (.uint _), .vUint n => n = 0
  | .scalar .f32, .vF32 r => FM.isZero32 r
  | .scalar .f64, .vF64 r => FM.isZero64 r
  | .slice _, .vSlice xs => xs.isEmpty
  | .ptr _, .vPtr p => p.isNone
  | .unsupported, .vState st => st = 0
  | _, _ => false

/-- Embedding of `getEncodingName`: resolved key and skip flag.  A first name token `-`
skips the field; a second token `omitempty` skips it when the value is its
type's zero value (the empty-list branch is unreachable: `strings.Split`
never returns an empty slice). -/
def getEncodingName (FM : FloatModel) (f : GoField) (v : GoValue) : String × Bool :=
  match getNameTags f with
  | [] => ("", false)
  | n0 :: rest =>
    if n0 = "-" then ("", true)
    else
      match rest with
      | n1 :: _ => if n1 = "omitempty" && isZeroV FM f.ty v then ("", true) else (n0, false)
      | [] => (n0, false)

/-- Embedding of `encodeField` (with `encodeSlice` inlined): scalars `Add` their string
form under the key; slices `Add` one string per element in order; pointer
fields recurse on `field.Elem()` — for a nil pointer `Elem()` is the invalid
`reflect.Value`, whose kind `Invalid` falls into the ignoring `default`
branch, so nothing is added; all other kinds are ignored. -/
def encodeFieldV (FM : FloatModel) : FieldTy → GoValue → String → QVals → QVals
  | .scalar t, v, key, out => qadd out key (scalarFormat FM t v)
  | .slice t, .vSlice xs, key, out => xs.foldl (fun o x => qadd o key (scalarFormat FM t x)) out
  | .slice _, _, _, out => out
  | .ptr t, .vPtr (some w), key, out => encodeFieldV FM t w key out
  | .ptr _, _, _, out => out
  | .unsupported, _, _, out => out

/-- The receiver state passed to a custom `EncodeValues` method: the state
of the field's value, `none` for a nil pointer receiver (the catch-all is
unreachable for well-typed custom fields). -/
def encStateOf : GoValue → Option Nat
  | .vState st => some st
  | .vPtr (some (.vState st)) => some st
  | .vPtr none => none
  | _ => some 0

/-- Embedding of `encodeCustom` applied to a struct field: `none` when neither the
field's type nor its pointer type implements `Encoder`; otherwise the
result of the user-supplied `EncodeValues` (the caller merges it). -/
def encodeCustomField (f : GoField) (v : GoValue) : Option (QVals × Option String) :=
  match f.enc with
  | none => none
  | some e => some (e (encStateOf v))

/-- The field loop of `encode`: skip unexported fields; when a field's type
(or pointer type) implements `Encoder`, merge its `EncodeValues` result into
the accumulated map and return its error immediately — terminating the
processing of the whole record; otherwise resolve the key, honour the skip
directives, and append the field's string form(s). -/
def encodeGoFields (FM : FloatModel) (out : QVals) : List (GoField × GoValue) → QVals × Option String
  | [] => (out, none)
  | fv :: rest =>
    if fv.1.exported then
      match encodeCustomField fv.1 fv.2 with
      | some se => (qmerge out se.1, se.2)
      | none =>
        match getEncodingName FM fv.1 fv.2 with
        | (_, true) => encodeGoFields FM out rest
        | (key, false) => encodeGoFields FM (encodeFieldV FM fv.1.ty fv.2 key out) rest
    else encodeGoFields FM out rest

/-- The inputs `Encode` can receive: a plain struct value (one that does not
itself implement `Encoder`), or a value of any non-struct kind that does not
implement `Encoder`. -/
inductive EncSource
  | struct (r : Record)
  | nonStruct (tyName : String)

/-- The observable outcome of `Encode`: a returned (map, error) pair, or a
runtime panic. -/
inductive EncResult
  | panics
  | ret (vals : QVals) (err : Option String)
  deriving DecidableEq

/-- Embedding of `Encode`: allocates an empty map and runs `encode` on it.  `encode` has
no kind dispatch: after the custom-encoder check it calls `val.NumField()`
directly, which panics for every non-struct kind (there is no error path
for unsupported input kinds in `encode.go`). -/
def EncodeGo (FM : FloatModel) : EncSource → EncResult
  | .struct r =>
    let p := encodeGoFields FM [] r
    .ret p.1 p.2
  | .nonStruct _ => .panics

/-- The map component of an encode outcome (empty when the call panics and
returns nothing). -/
def encMap : EncResult → QVals
  | .panics => []
  | .ret m _ => m

/-! ## Derived notions used by the claim statements -/

/-- The per-field errors `parseStruct` collects over a list of fields, in
declaration order. -/
def fieldErrs (FM : FloatModel) (q : QVals) (l : Record) : List String :=
  (l.map (decodeFieldStep FM q)).filterMap Prod.snd

/-- A field with no tags and a scalar type, exported, implementing neither
custom interface, whose derived name is not the exclude marker (automatic
for Go exported identifiers, which begin with an upper-case letter). -/
def plainScalarField (f : GoField) : Prop :=
  f.exported = true ∧ f.tagQuery = none ∧ f.tagDefault = none ∧
  f.dec = none ∧ f.enc = none ∧ (∃ t, f.ty = FieldTy.scalar t) ∧ getName f ≠ "-"

/-- The input map holds, under this field's derived name, exactly one string
in canonical form: its coercion succeeds and formatting the coerced value
returns the very same string. -/
def canonicalEntry (FM : FloatModel) (q : QVals) (f : GoField) : Prop :=
  ∀ t, f.ty = FieldTy.scalar t →
    ∃ s w, qget q (getName f) = [s] ∧ scalarParse FM t s = some w ∧ scalarFormat FM t w = s

/-- The values a custom encoder's returned map `sub` contributes under key
`k`, in the merge's iteration order. -/
def qcollect (sub : QVals) (k : String) : List String :=
  sub.foldr (fun e acc => (if e.1 = k then e.2 else []) ++ acc) []

/-! ## Concrete fields used by the witnesses and counterexamples -/

def c2XField : GoField := ⟨"X", true, none, none, .scalar (.int .w8), none, none⟩

def cexPageField : GoField := ⟨"PageSize", true, none, some "25", .scalar (.uint .w32), none, none⟩

def c10CustomField : GoField :=
  ⟨"Custom", true, none, none, .ptr .unsupported, some (fun _ st => (st + 7, none)), none⟩

def cexDashField : GoField := ⟨"Field1", true, some "-", none, .scalar .str, none, none⟩

def c5PreField : GoField := ⟨"S", true, none, none, .scalar .str, none, none⟩

def c5CustomField : GoField :=
  ⟨"C", true, none, none, .unsupported, none, some (fun _ => ([("custom", ["hi"])], none))⟩

def c5PostField : GoField := ⟨"T", true, none, none, .scalar .str, none, none⟩

def cexPtrField : GoField := ⟨"P", true, none, none, .ptr (.scalar (.int .w64)), none, none⟩

def c7Field : GoField := ⟨"Field2", true, some "field2,omitempty", none, .scalar .str, none, none⟩

def c8NumbersField : GoField := ⟨"Numbers", true, some "otherName", none, .slice (.int .w64), none, none⟩

def c8StrField : GoField := ⟨"S", true, none, none, .scalar .str, none, none⟩

def cexNumberField : GoField := ⟨"Number", true, none, none, .scalar (.int .w64), none, none⟩

def c1NameField : GoField := ⟨"Name", true, none, none, .scalar .str, none, none⟩

def c1CountField : GoField := ⟨"Count", true, none, none, .scalar (.uint .w32), none, none⟩

/-! ## Lemmas about the map model -/

theorem qget_qappend (q : QVals) (k0 : String) (vs : List String) (k : String) :
    qget (qappend q k0 vs) k = qget q k ++ (if k0 = k then vs else []) := by
  induction q with
  | nil =>
    by_cases h : k0 = k <;> simp [qappend, qget, h]
  | cons e rest ih =>
    obtain ⟨k1, vs1⟩ := e
    by_cases h1 : k1 = k0
    · subst h1
      by_cases h2 : k1 = k <;> simp [qappend, qget, h2]
    · by_cases h2 : k1 = k
      · subst h2
        simp [qappend, qget, h1]
        intro h
        exact absurd h.symm h1
      · simp [qappend, qget, h1, h2, ih]

theorem qget_qadd (q : QVals) (k0 : String) (v : String) (k : String) :
    qget (qadd q k0 v) k = qget q k ++ (if k0 = k then [v] else []) := by
  simp [qadd, qget_qappend]

theorem qget_qmerge (dst sub : QVals) (k : String) :
    qget (qmerge dst sub) k = qget dst k ++ qcollect sub k := by
  induction sub generalizing dst with
  | nil => simp [qmerge, qcollect]
  | cons e rest ih =>
    simp only [qmerge, List.foldl_cons, qcollect, List.foldr_cons]
    have h := ih (qappend dst e.1 e.2)
    simp only [qmerge, qcollect] at h
    rw [h, qget_qappend, List.append_assoc]

theorem joinErrors_eq_none (l : List String) : joinErrors l = none ↔ l = [] := by
  cases l <;> simp [joinErrors]

theorem mem_of_index {α : Type _} (l : List α) (i : Nat) (a : α) (h : l[i]? = some a) :
    a ∈ l := by
  induction l generalizing i with
  | nil => simp at h
  | cons x xs ih =>
    cases i with
    | zero =>
      simp at h
      simp [h]
    | succ j =>
      simp at h
      exact List.mem_cons_of_mem _ (ih j h)

/-! ## Lemmas about the decode walk -/

theorem parseStructGo_nil (FM : FloatModel) (q : QVals) :
    parseStructGo FM q [] = ([], none) := rfl

theorem parseStructGo_cons (FM : FloatModel) (q : QVals) (fv : GoField × GoValue) (r : Record) :
    parseStructGo FM q (fv :: r) =
      ((decodeFieldStep FM q fv).1 :: (parseStructGo FM q r).1,
       joinErrors ((decodeFieldStep FM q fv).2.toList ++ fieldErrs FM q r)) := by
  simp [parseStructGo, fieldErrs]
  cases h : (decodeFieldStep FM q fv).2 <;> simp [h, Option.toList]

theorem parseStructGo_fst_getElem (FM : FloatModel) (q : QVals) (r : Record) (i : Nat) :
    ((parseStructGo FM q r).1)[i]? = (r[i]?).map (fun fv => (decodeFieldStep FM q fv).1) := by
  simp [parseStructGo]
  rfl

theorem parseStructGo_append (FM : FloatModel) (q : QVals) (r1 r2 : Record) :
    parseStructGo FM q (r1 ++ r2) =
      ((parseStructGo FM q r1).1 ++ (parseStructGo FM q r2).1,
       joinErrors (fieldErrs FM q r1 ++ fieldErrs FM q r2)) := by
  simp [parseStructGo, fieldErrs]

/-- Auxiliary fact: `parseElems` preserves length and coerces index-wise in input order. -/
theorem parseElems_ok_spec (p : String → Option GoValue) (l : List String)
    (ws : List GoValue) (h : parseElems p l = .ok ws) :
    ws.length = l.length ∧ ∀ i : Nat, ws[i]? = (l[i]?).bind p := by
  induction l generalizing ws with
  | nil =>
    simp [parseElems] at h
    subst h
    exact ⟨rfl, fun i => by simp⟩
  | cons s rest ih =>
    simp only [parseElems] at h
    cases hp : p s with
    | none => simp [hp] at h
    | some w =>
      simp only [hp] at h
      cases hrec : parseElems p rest with
      | error e => simp [hrec, Except.map] at h
      | ok ws0 =>
        simp [hrec, Except.map] at h
        subst h
        obtain ⟨hlen, hidx⟩ := ih ws0 hrec
        refine ⟨by simp [hlen], fun i => ?_⟩
        cases i with
        | zero => simp [hp]
        | succ j => simpa using hidx j

theorem fieldErrs_cons (FM : FloatModel) (q : QVals) (fv : GoField × GoValue) (l : Record) :
    fieldErrs FM q (fv :: l) = (decodeFieldStep FM q fv).2.toList ++ fieldErrs FM q l := by
  simp only [fieldErrs, List.map_cons, List.filterMap_cons]
  cases h : (decodeFieldStep FM q fv).2 <;> simp [h, Option.toList]

/-! ## Lemmas about the encode walk -/

/-- Fields that implement no custom encoder never short-circuit the loop:
the walk over `pre ++ rest` continues into `rest` with the map accumulated
over `pre`. -/
theorem encodeGoFields_append (FM : FloatModel) (pre : Record)
    (hpre : ∀ fv ∈ pre, fv.1.enc = none) :
    ∀ (out : QVals) (rest : Record),
      encodeGoFields FM out (pre ++ rest) =
        encodeGoFields FM (encodeGoFields FM out pre).1 rest := by
  induction pre with
  | nil => intro out rest; rfl
  | cons fv pre ih =>
    intro out rest
    have hhd : fv.1.enc = none := hpre fv (by simp)
    have htl : ∀ gv ∈ pre, gv.1.enc = none := fun gv hgv => hpre gv (by simp [hgv])
    by_cases he : fv.1.exported
    · simp only [List.cons_append, encodeGoFields, he, if_true, encodeCustomField, hhd]
      cases hn : getEncodingName FM fv.1 fv.2 with
      | mk key skip =>
        cases skip <;> simp [ih htl]
    · simp only [List.cons_append, encodeGoFields, he, if_false]
      exact ih htl out rest

/-- A walk over custom-free fields returns a nil error. -/
theorem encodeGoFields_err_none (FM : FloatModel) (l : Record)
    (hl : ∀ fv ∈ l, fv.1.enc = none) :
    ∀ out : QVals, (encodeGoFields FM out l).2 = none := by
  induction l with
  | nil => intro out; rfl
  | cons fv l ih =>
    intro out
    have hhd : fv.1.enc = none := hl fv (by simp)
    have htl : ∀ gv ∈ l, gv.1.enc = none := fun gv hgv => hl gv (by simp [hgv])
    by_cases he : fv.1.exported
    · simp only [encodeGoFields, he, if_true, encodeCustomField, hhd]
      cases hn : getEncodingName FM fv.1 fv.2 with
      | mk key skip => cases skip <;> simp [ih htl]
    · simp only [encodeGoFields, he, if_false]
      exact ih htl out

/-! ## Claim C2 -/

/-- Claim C2: for every numeric field whose resolved first string is
malformed or outside the type's bit-width range (`scalarParse` returns an
error — which for the integer kinds is by definition exactly the
malformed-or-out-of-range strings), `Decode` returns a non-nil error and
the field's value after the call equals its value before the call. -/
theorem decode_numeric_range_error (FM : FloatModel) (q : QVals) (r : Record) (i : Nat)
    (f : GoField) (v : GoValue) (t : ScalarTy) (s : String) (rest : List String)
    (hi : r[i]? = some (f, v))
    (hexp : f.exported = true)
    (hdec : f.dec = none)
    (hty : f.ty = .scalar t)
    (_hnum : t ≠ .str ∧ t ≠ .bool)
    (hvals : getValues q f = s :: rest)
    (hfail : scalarParse FM t s = none) :
    (Decode FM (some q) r).2 ≠ none ∧ ((Decode FM (some q) r).1)[i]? = some (f, v) := by
  have hstep : decodeFieldStep FM q (f, v) = ((f, v), some (coerceMsg s)) := by
    simp [decodeFieldStep, hexp, decodeCustomField, hdec, hvals, hty, parseFieldV, hfail]
  constructor
  · show (parseStructGo FM q r).2 ≠ none
    intro hnone
    simp only [parseStructGo] at hnone
    have hall := (List.filterMap_eq_nil_iff.mp ((joinErrors_eq_none _).mp hnone))
    have hm : (f, v) ∈ r := mem_of_index r i (f, v) hi
    have hm2 : decodeFieldStep FM q (f, v) ∈ r.map (decodeFieldStep FM q) :=
      List.mem_map_of_mem _ hm
    have := hall _ hm2
    rw [hstep] at this
    simp at this
  · show ((parseStructGo FM q r).1)[i]? = some (f, v)
    rw [parseStructGo_fst_getElem, hi]
    simp [hstep]


/-- Claim C2 witness: the out-of-range string `"128"` for an `int8` field
leaves the field at its prior value `5` and yields a non-nil error. -/
theorem decode_numeric_range_error_witness :
    getValues [("x", ["128"])] c2XField = ["128"] ∧
    scalarParse FM0 (.int .w8) "128" = none ∧
    ((Decode FM0 (some [("x", ["128"])]) [(c2XField, .vInt 5)]).2 ≠ none ∧
     ((Decode FM0 (some [("x", ["128"])]) [(c2XField, .vInt 5)]).1)[0]? =
       some (c2XField, .vInt 5)) :=
  ⟨rfl, rfl,
   decode_numeric_range_error FM0 [("x", ["128"])] [(c2XField, .vInt 5)] 0
     c2XField (.vInt 5) (.int .w8) "128" [] rfl rfl rfl rfl
     ⟨by decide, by decide⟩ rfl rfl⟩

/-! ## Claim C3 -/


/-- Claim C3 counterexample: with an empty (non-nil) input map, `Decode`
still applies the field's declared default `"25"` and mutates the record —
the claim's "empty" case is false (only the nil case is a no-op). -/
theorem decode_empty_map_counterexample :
    (Decode FM0 (some []) [(cexPageField, .vUint 0)]).1.map Prod.snd = [GoValue.vUint 25] ∧
    (Decode FM0 (some []) [(cexPageField, .vUint 0)]).2 = none ∧
    GoValue.vUint 25 ≠ GoValue.vUint 0 :=
  ⟨rfl, rfl, by simp⟩

/-- Claim C3 (amended): for a nil/absent input map, `Decode` returns a nil
error and leaves the target record completely unchanged — no field is
mutated, no defaults are applied, and no custom decoder is invoked (the nil
check precedes every other action). -/
theorem decode_nil_map (FM : FloatModel) (r : Record) : Decode FM none r = (r, none) := rfl

/-! ## Claim C10 -/

/-- Claim C10: a nil pointer field whose type implements the custom decode
capability is first given a freshly allocated zero referent, which the
user-supplied decoder then processes with the full value map; afterwards
the field holds that (non-nil) referent even when the decoder reads nothing
from the map, and the decoder's error, if any, is collected with the other
field errors. -/
theorem decode_custom_nil_ptr (FM : FloatModel) (q : QVals) (pre post : Record)
    (f : GoField) (d : QVals → Nat → Nat × Option String) (t : FieldTy)
    (hdec : f.dec = some d) (hexp : f.exported = true) (hty : f.ty = .ptr t) :
    Decode FM (some q) (pre ++ (f, .vPtr none) :: post) =
      ((parseStructGo FM q pre).1 ++
         (f, .vPtr (some (.vState (d q 0).1))) :: (parseStructGo FM q post).1,
       joinErrors (fieldErrs FM q pre ++ ((d q 0).2.toList ++ fieldErrs FM q post))) ∧
    ((Decode FM (some q) (pre ++ (f, .vPtr none) :: post)).1)[pre.length]? =
      some (f, .vPtr (some (.vState (d q 0).1))) := by
  have hstep : decodeFieldStep FM q (f, .vPtr none) =
      ((f, .vPtr (some (.vState (d q 0).1))), (d q 0).2) := by
    simp [decodeFieldStep, hexp, decodeCustomField, hdec, hty]
  constructor
  · show parseStructGo FM q (pre ++ (f, GoValue.vPtr none) :: post) = _
    rw [parseStructGo_append, parseStructGo_cons, hstep]
    simp [fieldErrs_cons, hstep]
  · show ((parseStructGo FM q (pre ++ (f, GoValue.vPtr none) :: post)).1)[pre.length]? = _
    rw [parseStructGo_fst_getElem, List.getElem?_append_right (le_refl pre.length)]
    simp [hstep]


/-- Claim C10 witness: a nil custom-decodable pointer field is allocated and
decoded (here the decoder maps the zero state to `7`), ending non-nil. -/
theorem decode_custom_nil_ptr_witness :
    Decode FM0 (some []) [(c10CustomField, .vPtr none)] =
      ([(c10CustomField, .vPtr (some (.vState 7)))], none) ∧
    ((Decode FM0 (some []) [(c10CustomField, .vPtr none)]).1)[0]? =
      some (c10CustomField, .vPtr (some (.vState 7))) :=
  decode_custom_nil_ptr FM0 [] [] [] c10CustomField (fun _ st => (st + 7, none))
    .unsupported rfl rfl rfl

/-! ## Claim C4 -/


/-- Claim C4 counterexample: `getName` performs no `-` check, so decoding a
map that contains the literal key `"-"` does set a field whose name tag is
the sole token `-`, contradicting the claim's decode half. -/
theorem decode_dash_counterexample :
    (Decode FM0 (some [("-", ["x"])]) [(cexDashField, .vStr "")]).1.map Prod.snd =
      [GoValue.vStr "x"] ∧
    GoValue.vStr "x" ≠ GoValue.vStr "" :=
  ⟨rfl, by simp⟩

/-- Claim C4 (amended): a field whose name tag is the sole token `-` is
excluded from Encode — encoding a populated record yields no key at all —
but Decode does not exclude it: its resolved lookup name is the literal
string `-`, so the field stays untouched exactly when neither the map entry
under `"-"` nor a declared default supplies values, and a map containing the
literal key `"-"` does set it. -/
theorem dash_field (FM : FloatModel) (f : GoField) (v : GoValue) (q : QVals)
    (htag : f.tagQuery = some "-") (hexp : f.exported = true)
    (hdec : f.dec = none) (henc : f.enc = none) :
    (EncodeGo FM (.struct [(f, v)]) = .ret [] none) ∧
    (qget q "-" = [] → f.tagDefault = none → Decode FM (some q) [(f, v)] = ([(f, v)], none)) ∧
    (∀ s : String, qget q "-" = [s] → f.ty = .scalar .str →
      Decode FM (some q) [(f, v)] = ([(f, .vStr s)], none)) := by
  have hnames : getNameTags f = ["-"] := by
    simp only [getNameTags, htag]
    rfl
  have hname : getName f = "-" := by simp [getName, hnames]
  refine ⟨?_, ?_, ?_⟩
  · simp [EncodeGo, encodeGoFields, hexp, encodeCustomField, henc, getEncodingName, hnames]
  · intro hq hdef
    simp [Decode, parseStructGo, decodeFieldStep, hexp, decodeCustomField, hdec,
      getValues, hname, hq, getDefaultTags, hdef, joinErrors]
  · intro s hq hty
    simp [Decode, parseStructGo, decodeFieldStep, hexp, decodeCustomField, hdec,
      getValues, hname, hq, hty, parseFieldV, scalarParse, joinErrors]

/-- Claim C4 witness (for the amended statement): encoding the populated
`-`-tagged field yields the empty map, and decoding the map with the
literal key `"-"` sets the field. -/
theorem dash_field_witness :
    EncodeGo FM0 (.struct [(cexDashField, .vStr "hello")]) = .ret [] none ∧
    Decode FM0 (some [("-", ["y"])]) [(cexDashField, .vStr "hello")] =
      ([(cexDashField, .vStr "y")], none) :=
  ⟨(dash_field FM0 cexDashField (.vStr "hello") [("-", ["y"])] rfl rfl rfl rfl).1,
   (dash_field FM0 cexDashField (.vStr "hello") [("-", ["y"])] rfl rfl rfl rfl).2.2
     "y" rfl rfl⟩

/-! ## Claim C5 -/

/-- Claim C5: the first visible field whose type implements the custom
encode capability has its `EncodeValues` result merged into the map
accumulated so far, and the walk of the whole record stops there: the
result is independent of every field declared after it. -/
theorem encode_custom_field_terminates (FM : FloatModel) (pre post : Record)
    (f : GoField) (v : GoValue) (e : Option Nat → QVals × Option String) (outPre : QVals)
    (hpre : ∀ fv ∈ pre, fv.1.enc = none)
    (henc : f.enc = some e) (hexp : f.exported = true)
    (hacc : encodeGoFields FM [] pre = (outPre, none)) :
    EncodeGo FM (.struct (pre ++ (f, v) :: post)) =
      .ret (qmerge outPre (e (encStateOf v)).1) (e (encStateOf v)).2 := by
  have h1 := encodeGoFields_append FM pre hpre [] ((f, v) :: post)
  rw [hacc] at h1
  simp only [EncodeGo]
  rw [h1]
  simp [encodeGoFields, hexp, encodeCustomField, henc]




/-- Claim C5 witness: with a plain field before and after the
custom-encodable field, the output holds the prefix entry and the custom
result, and nothing from the trailing field. -/
theorem encode_custom_field_terminates_witness :
    EncodeGo FM0 (.struct
        [(c5PreField, .vStr "a"), (c5CustomField, .vState 0), (c5PostField, .vStr "b")]) =
      .ret [("s", ["a"]), ("custom", ["hi"])] none :=
  encode_custom_field_terminates FM0 [(c5PreField, .vStr "a")] [(c5PostField, .vStr "b")]
    c5CustomField (.vState 0) (fun _ => ([("custom", ["hi"])], none)) [("s", ["a"])]
    (by
      intro fv h
      rw [List.mem_singleton] at h
      subst h
      rfl)
    rfl rfl rfl

/-! ## Claim C6 -/


/-- Claim C6 counterexample: encoding a record whose only field is a nil
`*int64` yields the empty map — the resolved key `"p"` is omitted, not
mapped to `["0"]` as the claim states. -/
theorem encode_nil_ptr_counterexample :
    encMap (EncodeGo FM0 (.struct [(cexPtrField, .vPtr none)])) = [] ∧
    qget (encMap (EncodeGo FM0 (.struct [(cexPtrField, .vPtr none)]))) "p" ≠ ["0"] :=
  ⟨rfl, by decide⟩

/-- Claim C6 (amended): a nil pointer field contributes no entry at all:
`field.Elem()` on a nil pointer is the invalid `reflect.Value`, whose kind
falls into `encodeField`'s ignoring default branch, so the resolved key is
omitted from the output rather than mapped to a zero-value string. -/
theorem encode_nil_ptr_field (FM : FloatModel) (f : GoField) (t : FieldTy)
    (key : String) (out : QVals) (hty : f.ty = .ptr t) :
    encodeFieldV FM f.ty (.vPtr none) key out = out ∧
    (f.exported = true → f.enc = none →
      EncodeGo FM (.struct [(f, .vPtr none)]) = .ret [] none) := by
  have hfield : ∀ k o, encodeFieldV FM f.ty (.vPtr none) k o = o := by
    intro k o
    rw [hty]
    rfl
  refine ⟨hfield key out, ?_⟩
  intro hexp henc
  simp only [EncodeGo, encodeGoFields, hexp, if_true, encodeCustomField, henc]
  cases hn : getEncodingName FM f (.vPtr none) with
  | mk k sk =>
    cases sk
    · simp [hfield]
    · simp

/-- Claim C6 witness (for the amended statement): the nil `*int64` field
adds nothing to an arbitrary accumulated map and encodes to the empty
map. -/
theorem encode_nil_ptr_field_witness :
    encodeFieldV FM0 cexPtrField.ty (.vPtr none) "p" [("a", ["1"])] = [("a", ["1"])] ∧
    EncodeGo FM0 (.struct [(cexPtrField, .vPtr none)]) = .ret [] none :=
  ⟨(encode_nil_ptr_field FM0 cexPtrField (.scalar (.int .w64)) "p" [("a", ["1"])] rfl).1,
   (encode_nil_ptr_field FM0 cexPtrField (.scalar (.int .w64)) "p" [("a", ["1"])] rfl).2
     rfl rfl⟩

/-! ## Claim C7 -/

/-- Claim C7: a string field tagged `field2,omitempty` is skipped when it
holds the zero value `""` (no `field2` key in the output), and otherwise
contributes exactly the entry `field2 ↦ [value]`. -/
theorem encode_omitempty_string (FM : FloatModel) (f : GoField) (s : String)
    (htag : f.tagQuery = some "field2,omitempty") (hty : f.ty = .scalar .str)
    (hexp : f.exported = true) (henc : f.enc = none) :
    (s = "" → EncodeGo FM (.struct [(f, .vStr s)]) = .ret [] none) ∧
    (s ≠ "" → EncodeGo FM (.struct [(f, .vStr s)]) = .ret [("field2", [s])] none) := by
  have hnames : getNameTags f = ["field2", "omitempty"] := by
    simp only [getNameTags, htag]
    rfl
  constructor
  · intro hs
    subst hs
    have hskip : getEncodingName FM f (.vStr "") = ("", true) := by
      simp [getEncodingName, hnames, hty, isZeroV]
    simp [EncodeGo, encodeGoFields, hexp, encodeCustomField, henc, hskip]
  · intro hs
    have hkey : getEncodingName FM f (.vStr s) = ("field2", false) := by
      simp [getEncodingName, hnames, hty, isZeroV, hs]
    simp [EncodeGo, encodeGoFields, hexp, encodeCustomField, henc, hkey, hty,
      encodeFieldV, scalarFormat, qadd, qappend]


/-- Claim C7 witness: the zero value yields no `field2` key; the value
`"hello world"` yields exactly `field2 ↦ ["hello world"]`. -/
theorem encode_omitempty_string_witness :
    EncodeGo FM0 (.struct [(c7Field, .vStr "")]) = .ret [] none ∧
    EncodeGo FM0 (.struct [(c7Field, .vStr "hello world")]) =
      .ret [("field2", ["hello world"])] none :=
  ⟨(encode_omitempty_string FM0 c7Field "" rfl rfl rfl rfl).1 rfl,
   (encode_omitempty_string FM0 c7Field "hello world" rfl rfl rfl rfl).2 (by decide)⟩

/-! ## Claim C1 -/


/-- Claim C1 counterexample: all values of the input map are within `int64`
range, yet decode-then-encode is not the identity — only the first of the
two values survives (and similarly a non-canonical spelling like `"007"`
would re-encode as `"7"`). -/
theorem roundtrip_counterexample :
    qget (encMap (EncodeGo FM0 (.struct
        (Decode FM0 (some [("number", ["5", "6"])]) [(cexNumberField, .vInt 0)]).1)))
      "number" = ["5"] ∧
    qget [("number", ["5", "6"])] "number" = ["5", "6"] ∧
    (["5"] : List String) ≠ ["5", "6"] :=
  ⟨rfl, rfl, by decide⟩

/-- One induction step of the round trip: decoding a record of plain,
untagged scalar fields and re-encoding it extends the accumulated output
map, under each field's derived name, by exactly the input map's entry for
that name. -/
theorem roundtrip_aux (FM : FloatModel) (q : QVals) :
    ∀ (r : Record) (out : QVals),
      (∀ fv ∈ r, plainScalarField fv.1) →
      (∀ fv ∈ r, canonicalEntry FM q fv.1) →
      (r.map (fun fv => getName fv.1)).Nodup →
      ∀ k, qget (encodeGoFields FM out (parseStructGo FM q r).1).1 k =
        qget out k ++ (if k ∈ r.map (fun fv => getName fv.1) then qget q k else []) := by
  intro r
  induction r with
  | nil =>
    intro out _ _ _ k
    simp [parseStructGo, encodeGoFields]
  | cons fv rest ih =>
    intro out hplain hcanon hnodup k
    obtain ⟨f, v⟩ := fv
    have hplainf : plainScalarField f := hplain (f, v) (by simp)
    have hcanonf : canonicalEntry FM q f := hcanon (f, v) (by simp)
    obtain ⟨hexp, htq, htd, hdec, henc, ⟨t, hty⟩, hnd⟩ := hplainf
    obtain ⟨s, w, hq, hp, hfmt⟩ := hcanonf t hty
    have hvals : getValues q f = [s] := by simp [getValues, hq]
    have hstep : decodeFieldStep FM q (f, v) = ((f, w), none) := by
      simp [decodeFieldStep, hexp, decodeCustomField, hdec, hvals, hty, parseFieldV, hp]
    have htags : getNameTags f = [lowerFirst f.goName] := by
      simp [getNameTags, htq]
    have hn0 : getName f = lowerFirst f.goName := by simp [getName, htags]
    have hdash : lowerFirst f.goName ≠ "-" := hn0 ▸ hnd
    have hkey : getEncodingName FM f w = (getName f, false) := by
      simp [getEncodingName, htags, hdash, hn0]
    have hfieldv : encodeFieldV FM f.ty w (getName f) out = qadd out (getName f) s := by
      rw [hty]
      simp [encodeFieldV, hfmt]
    rw [parseStructGo_cons, hstep]
    simp only [encodeGoFields, hexp, if_true, encodeCustomField, henc, hkey, hfieldv]
    have htlplain : ∀ gv ∈ rest, plainScalarField gv.1 :=
      fun gv hg => hplain gv (List.mem_cons_of_mem _ hg)
    have htlcanon : ∀ gv ∈ rest, canonicalEntry FM q gv.1 :=
      fun gv hg => hcanon gv (List.mem_cons_of_mem _ hg)
    have hnodup2 : (getName f :: rest.map (fun gv => getName gv.1)).Nodup := hnodup
    have hnd2 : getName f ∉ rest.map (fun gv => getName gv.1) ∧
        (rest.map (fun gv => getName gv.1)).Nodup := List.nodup_cons.mp hnodup2
    rw [ih (qadd out (getName f) s) htlplain htlcanon hnd2.2 k, qget_qadd]
    by_cases hk : getName f = k
    · have hnotin : k ∉ rest.map (fun gv => getName gv.1) := hk ▸ hnd2.1
      rw [if_pos hk, if_neg hnotin, List.append_nil]
      have hqk : qget q k = [s] := hk ▸ hq
      rw [List.map_cons, if_pos (by rw [← hk]; exact List.mem_cons_self _ _), hqk]
    · rw [if_neg hk, List.append_nil]
      have : (k ∈ getName f :: rest.map (fun gv => getName gv.1)) ↔
          (k ∈ rest.map (fun gv => getName gv.1)) := by
        simp [List.mem_cons]
        intro hkk
        exact absurd hkk.symm hk
      simp only [List.map_cons]
      rw [if_congr this rfl rfl]

/-- Claim C1 (amended): for a record whose fields are all plain untagged
scalars with pairwise distinct derived names, and an input map whose keys
are exactly those derived names, each holding a single canonical string
(one whose coercion succeeds and re-formats to itself), decoding the map
into the record and encoding the result yields a map extensionally equal to
the input.  The counterexample forces the two added provisos: one value per
key, in canonical spelling. -/
theorem decode_encode_roundtrip (FM : FloatModel) (r : Record) (q : QVals)
    (hplain : ∀ fv ∈ r, plainScalarField fv.1)
    (hcanon : ∀ fv ∈ r, canonicalEntry FM q fv.1)
    (hnodup : (r.map (fun fv => getName fv.1)).Nodup)
    (hcover : ∀ k, qget q k ≠ [] → k ∈ r.map (fun fv => getName fv.1)) :
    ∀ k, qget (encMap (EncodeGo FM (.struct (Decode FM (some q) r).1))) k = qget q k := by
  intro k
  have h := roundtrip_aux FM q r [] hplain hcanon hnodup k
  show qget (encMap (EncodeGo FM (.struct (parseStructGo FM q r).1))) k = qget q k
  have henc : encMap (EncodeGo FM (.struct (parseStructGo FM q r).1)) =
      (encodeGoFields FM [] (parseStructGo FM q r).1).1 := rfl
  rw [henc, h]
  by_cases hk : k ∈ r.map (fun fv => getName fv.1)
  · simp [qget, hk]
  · rw [if_neg hk]
    show qget [] k ++ [] = qget q k
    by_contra hne
    have : qget q k ≠ [] := by
      intro hz
      exact hne (by simp [qget, hz])
    exact hk (hcover k this)



/-- Claim C1 witness: a two-field record (a string and a `uint32`) with the
map `name ↦ ["bob"], count ↦ ["25"]` round-trips exactly, also at a key
absent from the map. -/
theorem decode_encode_roundtrip_witness :
    qget (encMap (EncodeGo FM0 (.struct (Decode FM0
        (some [("name", ["bob"]), ("count", ["25"])])
        [(c1NameField, .vStr ""), (c1CountField, .vUint 0)]).1))) "name" =
      qget [("name", ["bob"]), ("count", ["25"])] "name" ∧
    qget (encMap (EncodeGo FM0 (.struct (Decode FM0
        (some [("name", ["bob"]), ("count", ["25"])])
        [(c1NameField, .vStr ""), (c1CountField, .vUint 0)]).1))) "count" =
      qget [("name", ["bob"]), ("count", ["25"])] "count" ∧
    qget (encMap (EncodeGo FM0 (.struct (Decode FM0
        (some [("name", ["bob"]), ("count", ["25"])])
        [(c1NameField, .vStr ""), (c1CountField, .vUint 0)]).1))) "zzz" =
      qget [("name", ["bob"]), ("count", ["25"])] "zzz" := by
  have hplain : ∀ fv ∈ [(c1NameField, GoValue.vStr ""), (c1CountField, GoValue.vUint 0)],
      plainScalarField fv.1 := by
    intro fv h
    simp [List.mem_cons] at h
    rcases h with h | h <;> subst h
    · exact ⟨rfl, rfl, rfl, rfl, rfl, ⟨.str, rfl⟩, by decide⟩
    · exact ⟨rfl, rfl, rfl, rfl, rfl, ⟨.uint .w32, rfl⟩, by decide⟩
  have hcanon : ∀ fv ∈ [(c1NameField, GoValue.vStr ""), (c1CountField, GoValue.vUint 0)],
      canonicalEntry FM0 [("name", ["bob"]), ("count", ["25"])] fv.1 := by
    intro fv h
    simp [List.mem_cons] at h
    rcases h with h | h <;> subst h
    · intro t ht
      have ht2 : ScalarTy.str = t := by injection ht
      subst ht2
      exact ⟨"bob", .vStr "bob", rfl, rfl, rfl⟩
    · intro t ht
      have ht2 : ScalarTy.uint .w32 = t := by injection ht
      subst ht2
      exact ⟨"25", .vUint 25, rfl, rfl, rfl⟩
  have hnodup : (([(c1NameField, GoValue.vStr ""), (c1CountField, GoValue.vUint 0)]).map
      (fun fv => getName fv.1)).Nodup := by
    show (["name", "count"] : List String).Nodup
    decide
  have hcover : ∀ k, qget [("name", ["bob"]), ("count", ["25"])] k ≠ [] →
      k ∈ ([(c1NameField, GoValue.vStr ""), (c1CountField, GoValue.vUint 0)]).map
        (fun fv => getName fv.1) := by
    intro k hk
    show k ∈ ["name", "count"]
    by_cases h1 : "name" = k
    · subst h1
      simp
    · by_cases h2 : "count" = k
      · subst h2
        simp
      · exfalso
        apply hk
        show qget [("name", ["bob"]), ("count", ["25"])] k = []
        simp [qget, h1, h2]
  have main := decode_encode_roundtrip FM0
    [(c1NameField, .vStr ""), (c1CountField, .vUint 0)]
    [("name", ["bob"]), ("count", ["25"])] hplain hcanon hnodup hcover
  exact ⟨main "name", main "count", main "zzz"⟩

/-! ## Claim C8 -/

/-- Claim C8: a sequence-typed field coerces every resolved string in order
into the element type, preserving input order in the resulting sequence;
when every element succeeds the whole parsed sequence replaces the field,
and on any single element failure the field is left unchanged, exactly one
error is recorded for it, and the remaining fields of the record are still
processed, with all per-field errors joined into the composite result. -/
theorem decode_slice_field (FM : FloatModel) (q : QVals) (pre post : Record)
    (f : GoField) (v : GoValue) (t : ScalarTy) (s : String) (rest : List String)
    (hty : f.ty = .slice t) (hexp : f.exported = true) (hdec : f.dec = none)
    (hvals : getValues q f = s :: rest) :
    (∀ ws, parseElems (scalarParse FM t) (s :: rest) = .ok ws →
        ws.length = (s :: rest).length ∧
        (∀ i : Nat, ws[i]? = ((s :: rest)[i]?).bind (scalarParse FM t)) ∧
        Decode FM (some q) (pre ++ (f, v) :: post) =
          ((parseStructGo FM q pre).1 ++ (f, .vSlice ws) :: (parseStructGo FM q post).1,
           joinErrors (fieldErrs FM q pre ++ fieldErrs FM q post))) ∧
    (∀ msg, parseElems (scalarParse FM t) (s :: rest) = .error msg →
        Decode FM (some q) (pre ++ (f, v) :: post) =
          ((parseStructGo FM q pre).1 ++ (f, v) :: (parseStructGo FM q post).1,
           joinErrors (fieldErrs FM q pre ++ msg :: fieldErrs FM q post))) := by
  constructor
  · intro ws hok
    obtain ⟨hlen, hidx⟩ := parseElems_ok_spec (scalarParse FM t) (s :: rest) ws hok
    refine ⟨hlen, hidx, ?_⟩
    have hstep : decodeFieldStep FM q (f, v) = ((f, .vSlice ws), none) := by
      simp [decodeFieldStep, hexp, decodeCustomField, hdec, hvals, hty, parseFieldV, hok,
        Except.map]
    show parseStructGo FM q (pre ++ (f, v) :: post) = _
    rw [parseStructGo_append, parseStructGo_cons, hstep]
    simp [fieldErrs_cons, hstep]
  · intro msg herr
    have hstep : decodeFieldStep FM q (f, v) = ((f, v), some msg) := by
      simp [decodeFieldStep, hexp, decodeCustomField, hdec, hvals, hty, parseFieldV, herr,
        Except.map]
    show parseStructGo FM q (pre ++ (f, v) :: post) = _
    rw [parseStructGo_append, parseStructGo_cons, hstep]
    simp [fieldErrs_cons, hstep]



/-- Claim C8 witness: under the tag-overridden key, `["25", "64"]` decodes
to the sequence `[25, 64]` in order; with `["25", "x"]` the slice field
keeps its prior value `[9]`, one error is recorded, and the sibling string
field is still populated. -/
theorem decode_slice_field_witness :
    Decode FM0 (some [("otherName", ["25", "64"])]) [(c8NumbersField, .vSlice [.vInt 9])] =
      ([(c8NumbersField, .vSlice [.vInt 25, .vInt 64])], joinErrors []) ∧
    Decode FM0 (some [("otherName", ["25", "x"]), ("s", ["ok"])])
        [(c8NumbersField, .vSlice [.vInt 9]), (c8StrField, .vStr "")] =
      ([(c8NumbersField, .vSlice [.vInt 9]), (c8StrField, .vStr "ok")],
       joinErrors [coerceMsg "x"]) :=
  ⟨((decode_slice_field FM0 [("otherName", ["25", "64"])] [] [] c8NumbersField
      (.vSlice [.vInt 9]) (.int .w64) "25" ["64"] rfl rfl rfl rfl).1
      [.vInt 25, .vInt 64] rfl).2.2,
   (decode_slice_field FM0 [("otherName", ["25", "x"]), ("s", ["ok"])] []
      [(c8StrField, .vStr "")] c8NumbersField (.vSlice [.vInt 9]) (.int .w64) "25" ["x"]
      rfl rfl rfl rfl).2 (coerceMsg "x") rfl⟩

/-! ## Claim C9 -/

/-- Claim C9: contrary to the claim, `Encode` has no type-error path at all:
`encode` performs no kind dispatch and calls `reflect.Value.NumField`
directly, which panics for every non-struct input that does not implement
the custom encode capability — nothing (neither a map nor an error) is
returned.  The repo's own `TestEncode` "invalid type" case expects an error
return for `Encode(42)`. -/
theorem encode_non_struct_panics (FM : FloatModel) (tyName : String) :
    EncodeGo FM (.nonStruct tyName) = .panics := rfl

end UrlQuery
